import Mathlib

/-
Verification development for the hierarchical permission-gated key-value
store implemented in src/src/store.ts (class Store) and its variant
src/unnamed/part_000.  The definitions below are a shallow embedding of
that TypeScript code: JavaScript dynamic values are modelled by the
inductive type SValue, JavaScript exceptions by the Except monad, and the
mutable closure state of stored thunks by an invocation counter threaded
through read.
-/

namespace StoreSpec

/-- The permission type of store.ts, line 4: type Permission = r, w, rw, none. -/
inductive Permission where
  | r
  | w
  | rw
  | none
deriving DecidableEq, Repr

/-- JSON primitive values: string, number, boolean, null.  Numbers are
modelled as integers; no claim depends on fractional values. -/
inductive JPrim where
  | jnull
  | jbool (b : Bool)
  | jnum (n : Int)
  | jstr (s : String)
deriving DecidableEq, Repr

mutual
/-- A runtime JavaScript value that can be stored in a field or passed to
write (the StoreValue type of store.ts): a JSON primitive, undefined, an
array, a plain object, a Store instance, or a zero-argument callable
(thunk).  A thunk is modelled by its invocation count together with a
function from that count to the value the closure returns on that
invocation; this captures closures with internal state such as counters. -/
inductive SValue where
  | prim (p : JPrim)
  | undefinedV
  | arr (elems : List SValue)
  | obj (fields : List (String × SValue))
  | node (s : Store)
  | thunk (count : Nat) (fn : Nat → SValue)

/-- A Store instance (class Store of store.ts).  perms is the slice of the
process-wide permission registry for this instance's schema identity
(decorator metadata in store.ts, the constructor-name-keyed table in
part_000).  fields are the dynamic own enumerable properties, in insertion
order; the defaultPolicy property is one of them, initialised by the
constructor. -/
inductive Store where
  | mk (perms : List (String × Permission)) (fields : List (String × SValue))
end

/-- Errors: the two Error throws of store.ts (empty path, read/write not
allowed) plus the implicit JavaScript TypeError raised when a value that
is not a Store instance (including undefined) is used as a sub-store, and
the TypeError of Object.entries(null). -/
inductive Err where
  | emptyPath
  | readNotAllowed (key : String)
  | writeNotAllowed (key : String)
  | notAStore (key : String)
  | nullEntries
deriving DecidableEq, Repr

def Store.perms : Store → List (String × Permission)
  | .mk ps _ => ps

def Store.fields : Store → List (String × SValue)
  | .mk _ fs => fs

/-- The colon character used as the path separator. -/
def colon : Char := ':'

/-- The field name of the per-instance default policy property. -/
def dpKey : String := "defaultPolicy"

/-- The initial policy string of a freshly constructed Store. -/
def rwStr : String := "rw"

/-- Splitting a character list on the colon separator, exactly as the
JavaScript String.prototype.split with a one-character separator behaves:
the result is always non-empty, and empty segments are preserved. -/
def splitChars : List Char → List (List Char)
  | [] => [[]]
  | c :: cs =>
    if c = colon then [] :: splitChars cs
    else
      match splitChars cs with
      | [] => [[c]]
      | s :: ss => (c :: s) :: ss

/-- path.split for strings: the model of the JavaScript split used by
computePath of store.ts, line 131. -/
def strSplit (s : String) : List String :=
  (splitChars s.data).map (fun cs => String.mk cs)

/-- keys.join for strings: the model of the JavaScript Array.join used by
computePath of store.ts, line 136. -/
def strJoin : List String → String
  | [] => ""
  | [s] => s
  | s :: ss => s ++ String.mk [colon] ++ strJoin ss

/-- Character-level join with the colon separator. -/
def joinC : List (List Char) → List Char
  | [] => []
  | [c] => c
  | c :: cs => c ++ colon :: joinC cs

theorem splitChars_ne_nil (cs : List Char) : splitChars cs ≠ [] := by
  cases cs with
  | nil => simp [splitChars]
  | cons c cs =>
    simp only [splitChars]
    split
    · simp
    · split <;> simp

theorem mk_append_mk (a b : List Char) :
    String.mk a ++ String.mk b = String.mk (a ++ b) := rfl

theorem strJoin_map_mk (ls : List (List Char)) :
    strJoin (ls.map (fun l => String.mk l)) = String.mk (joinC ls) := by
  induction ls with
  | nil => rfl
  | cons c cs ih =>
    cases cs with
    | nil => rfl
    | cons d ds =>
      simp only [List.map_cons] at ih ⊢
      simp only [strJoin, joinC, ih, mk_append_mk]
      simp

/-- Joining the character-level split restores the original list. -/
theorem joinC_splitChars (cs : List Char) : joinC (splitChars cs) = cs := by
  induction cs with
  | nil => rfl
  | cons c cs ih =>
    simp only [splitChars]
    split
    · rename_i hc
      subst hc
      cases hsp : splitChars cs with
      | nil => exact absurd hsp (splitChars_ne_nil cs)
      | cons s ss =>
        rw [hsp] at ih
        simp only [joinC, List.nil_append]
        rw [ih]
    · rename_i hc
      cases hsp : splitChars cs with
      | nil => exact absurd hsp (splitChars_ne_nil cs)
      | cons s ss =>
        rw [hsp] at ih
        cases ss with
        | nil => simp only [joinC] at ih ⊢; rw [ih]
        | cons t ts =>
          simp only [joinC, List.cons_append] at ih ⊢
          rw [ih]

/-- Splitting a string, then rejoining with the separator, restores it. -/
theorem strJoin_strSplit (s : String) : strJoin (strSplit s) = s := by
  cases s with
  | mk data =>
    rw [strSplit, strJoin_map_mk, joinC_splitChars]

theorem strJoin_cons_cons (a b : String) (rest : List String) :
    strJoin (a :: b :: rest) = a ++ String.mk [colon] ++ strJoin (b :: rest) := rfl

theorem strJoin_cons_length (a b : String) (rest : List String) :
    (strJoin (a :: b :: rest)).length
      = a.length + 1 + (strJoin (b :: rest)).length := by
  rw [strJoin_cons_cons, String.length_append, String.length_append]
  rfl

/-- The path resolution of store.ts, lines 130-138 (computePath): split on
the colon, take the first segment as key (throwing on an empty first
segment, which includes the empty path), and rejoin the remaining
segments as the sub-path. -/
def computePath (path : String) : Except Err (String × String) :=
  match strSplit path with
  | [] => .error .emptyPath
  | key :: rest =>
    if key = "" then .error .emptyPath
    else .ok (key, strJoin rest)

theorem length_pos_of_ne_empty (s : String) (h : s ≠ "") : 1 ≤ s.length := by
  cases s with
  | mk data =>
    cases data with
    | nil => exact absurd rfl h
    | cons c cs => simp [String.length]

/-- A successful non-terminal path resolution strictly shrinks the path:
the sub-path is shorter than the input by at least the key and one colon. -/
theorem computePath_length (path k sub : String)
    (h : computePath path = .ok (k, sub)) (hs : sub ≠ "") :
    sub.length + 2 ≤ path.length := by
  unfold computePath at h
  cases hsp : strSplit path with
  | nil => rw [hsp] at h; exact absurd h (by simp)
  | cons key rest =>
    rw [hsp] at h
    by_cases hk : key = ""
    · simp [hk] at h
    · simp only [hk, if_false, Except.ok.injEq, Prod.mk.injEq] at h
      obtain ⟨hkey, hsub⟩ := h
      subst hkey
      cases rest with
      | nil => rw [← hsub] at hs; exact absurd rfl hs
      | cons b bs =>
        have hlen := strJoin_cons_length key b bs
        have hjoin : strJoin (key :: b :: bs) = path := by
          rw [← hsp]; exact strJoin_strSplit path
        have hkl := length_pos_of_ne_empty key hk
        rw [hjoin, hsub] at hlen
        omega

/-- Association-list lookup of a dynamic property, modelling the
JavaScript property access this[key] on own properties. -/
def lookupField : List (String × SValue) → String → Option SValue
  | [], _ => Option.none
  | (k, v) :: rest, key => if k = key then some v else lookupField rest key

/-- In-place update or insertion-order append, modelling
Object.defineProperty of store.ts, lines 140-146 (setAttribute). -/
def setField : List (String × SValue) → String → SValue → List (String × SValue)
  | [], key, v => [(key, v)]
  | (k, w) :: rest, key, v =>
    if k = key then (key, v) :: rest else (k, w) :: setField rest key v

/-- Lookup in the permission registry slice of a schema identity
(the metadata object of store.ts, line 81). -/
def lookupPerm : List (String × Permission) → String → Option Permission
  | [], _ => Option.none
  | (k, p) :: rest, key => if k = key then some p else lookupPerm rest key

/-- getAttribute of store.ts, lines 148-150: property access; a missing
property reads as undefined, exactly like a stored undefined. -/
def getAttribute (s : Store) (key : String) : SValue :=
  (lookupField s.fields key).getD .undefinedV

/-- setAttribute of store.ts, lines 140-146. -/
def setAttribute (s : Store) (key : String) (v : SValue) : Store :=
  .mk s.perms (setField s.fields key v)

/-- new Store(): empty registry slice for the base schema, and the single
own property defaultPolicy = rw set by the field initialiser (line 35). -/
def newStore : Store :=
  .mk [] [(dpKey, .prim (.jstr rwStr))]

/-- The permission string of a registered Permission value. -/
def permStr : Permission → String
  | .r => "r"
  | .w => "w"
  | .rw => "rw"
  | .none => "none"

/-- getPermission of store.ts, lines 80-83: the registered permission for
this schema and key, or else the current value of the defaultPolicy
property (which an earlier write may have replaced with any value). -/
def getPermission (s : Store) (key : String) : SValue :=
  match lookupPerm s.perms key with
  | some p => .prim (.jstr (permStr p))
  | Option.none => getAttribute s dpKey

/-- JavaScript strict equality of an arbitrary value against a string. -/
def svEqStr : SValue → String → Bool
  | .prim (.jstr t), u => t == u
  | _, _ => false

/-- The string literal r. -/
def rStr : String := "r"

/-- The string literal w. -/
def wStr : String := "w"

/-- allowedToRead of store.ts, lines 37-40. -/
def allowedToRead (s : Store) (key : String) : Bool :=
  svEqStr (getPermission s key) rStr || svEqStr (getPermission s key) rwStr

/-- allowedToWrite of store.ts, lines 42-45. -/
def allowedToWrite (s : Store) (key : String) : Bool :=
  svEqStr (getPermission s key) wStr || svEqStr (getPermission s key) rwStr

/-- JavaScript truthiness of a runtime value: undefined, null, false, 0
and the empty string are falsy; objects, arrays, stores and functions are
always truthy. -/
def truthy : SValue → Bool
  | .prim .jnull => false
  | .prim (.jbool b) => b
  | .prim (.jnum n) => n != 0
  | .prim (.jstr s) => s ≠ ""
  | .undefinedV => false
  | _ => true

/-- Values on which the JavaScript typeof operator yields the string
object: plain objects, arrays, Store instances, and null. -/
def isObjectType : SValue → Bool
  | .prim .jnull => true
  | .arr _ => true
  | .obj _ => true
  | .node _ => true
  | _ => false

/-- Object.entries of an array value: index keys in ascending decimal
order, as JavaScript enumerates them. -/
def enumFrom : Nat → List SValue → List (String × SValue)
  | _, [] => []
  | i, x :: xs => (Nat.repr i, x) :: enumFrom (i + 1) xs

/-- Object.entries as invoked by addToThisStore (store.ts line 107) on a
value of typeof object: the own enumerable properties of objects and
Store instances, the indexed elements of arrays, and a TypeError on null.
The final catch-all is never reached, because the call site guards with
isObjectType. -/
def entriesOf : SValue → Except Err (List (String × SValue))
  | .prim .jnull => .error .nullEntries
  | .arr xs => .ok (enumFrom 0 xs)
  | .obj fs => .ok fs
  | .node (.mk _ fs) => .ok fs
  | _ => .ok []

/-- readThisStore of store.ts, lines 85-93: permission check, then the
stored value; a stored callable is invoked (its internal state advances)
and its result returned, anything else is returned verbatim. -/
def readThisStore (s : Store) (key : String) : Except Err (SValue × Store) :=
  if allowedToRead s key = false then .error (.readNotAllowed key)
  else
    match getAttribute s key with
    | .thunk c fn => .ok (fn c, setAttribute s key (.thunk (c + 1) fn))
    | v => .ok (v, s)

mutual
/-- Structural size of a value, used as the termination measure of write:
recursive expansion of composites only ever descends into strictly
smaller values. -/
def valSize : SValue → Nat
  | .prim _ => 1
  | .undefinedV => 1
  | .thunk _ _ => 1
  | .arr xs => 2 + listSize xs
  | .obj fs => 2 + fieldsSize fs
  | .node (.mk _ fs) => 2 + fieldsSize fs

def listSize : List SValue → Nat
  | [] => 0
  | x :: xs => valSize x + listSize xs

def fieldsSize : List (String × SValue) → Nat
  | [] => 0
  | (_, v) :: fs => valSize v + fieldsSize fs
end

theorem valSize_pos (v : SValue) : 1 ≤ valSize v := by
  cases v with
  | node s => cases s with | mk p fs => simp [valSize]; omega
  | _ => simp [valSize] <;> omega

theorem fieldsSize_enumFrom (i : Nat) (xs : List SValue) :
    fieldsSize (enumFrom i xs) = listSize xs := by
  induction xs generalizing i with
  | nil => rfl
  | cons x xs ih => simp [enumFrom, fieldsSize, listSize, ih]

theorem entriesOf_size (value : SValue) (entries : List (String × SValue))
    (hO : isObjectType value = true) (hE : entriesOf value = .ok entries) :
    fieldsSize entries + 1 < valSize value := by
  cases value with
  | prim p => cases p <;> simp_all [isObjectType, entriesOf]
  | undefinedV => simp [isObjectType] at hO
  | thunk c fn => simp [isObjectType] at hO
  | arr xs =>
    simp only [entriesOf, Except.ok.injEq] at hE
    subst hE
    simp [valSize, fieldsSize_enumFrom]
    omega
  | obj fs =>
    simp only [entriesOf, Except.ok.injEq] at hE
    subst hE
    simp [valSize]
    omega
  | node s =>
    cases s with
    | mk p fs =>
      simp only [entriesOf, Except.ok.injEq] at hE
      subst hE
      simp [valSize]
      omega

mutual
/-- read of store.ts, lines 47-53: resolve the path, then read locally on
a terminal segment or recurse through the addressed field otherwise.  The
returned Store is the post-state of the tree: the source mutates thunk
closure state in place, the model returns the updated tree alongside the
result. -/
def Store.read (s : Store) (path : String) : Except Err (SValue × Store) :=
  match h : computePath path with
  | .error e => .error e
  | .ok (key, subPath) =>
    if hs : subPath = "" then readThisStore s key
    else readNestedStore s subPath key
termination_by path.length + 1
decreasing_by
  have := computePath_length path key subPath h hs
  omega

/-- readNestedStore of store.ts, lines 95-99: no permission check at this
level; a stored callable is invoked (advancing its state) to obtain the
sub-store, and the read recurses into it.  Any value that is not a Store
instance (including undefined for a missing field) raises the TypeError
modelled by Err.notAStore.  When the field stores a node, the recursion
acts on the stored child itself, so its post-state is written back. -/
def readNestedStore (s : Store) (subPath : String) (key : String) :
    Except Err (SValue × Store) :=
  match getAttribute s key with
  | .node child =>
    match Store.read child subPath with
    | .error e => .error e
    | .ok (res, child2) => .ok (res, setAttribute s key (.node child2))
  | .thunk c fn =>
    match fn c with
    | .node child =>
      match Store.read child subPath with
      | .error e => .error e
      | .ok (res, _) => .ok (res, setAttribute s key (.thunk (c + 1) fn))
    | _ => .error (.notAStore key)
  | _ => .error (.notAStore key)
termination_by subPath.length + 2
decreasing_by
  all_goals omega
end

mutual
/-- write of store.ts, lines 55-62: resolve the path, then store locally
on a terminal segment or descend through the addressed field otherwise.
The source returns the written value unchanged; the model returns the
updated tree. -/
def Store.write (s : Store) (path : String) (value : SValue) :
    Except Err Store :=
  match h : computePath path with
  | .error e => .error e
  | .ok (key, subPath) =>
    if hs : subPath = "" then addToThisStore s key value
    else addToNestedStore s key subPath value
termination_by (valSize value, path.length + 1)
decreasing_by
  · apply Prod.Lex.right
    omega
  · apply Prod.Lex.right
    have := computePath_length path key subPath h hs
    omega

/-- addToThisStore of store.ts, lines 101-114: permission check, then a
value of typeof object is expanded entry by entry into a fresh child
store (Object.entries throws on null), and any other value is stored
directly. -/
def addToThisStore (s : Store) (key : String) (value : SValue) :
    Except Err Store :=
  if allowedToWrite s key = false then .error (.writeNotAllowed key)
  else
    if hO : isObjectType value = true then
      match hE : entriesOf value with
      | .error e => .error e
      | .ok entries =>
        match writeEntriesList newStore entries with
        | .error e => .error e
        | .ok sub => .ok (setAttribute s key (.node sub))
    else .ok (setAttribute s key value)
termination_by (valSize value, 0)
decreasing_by
  apply Prod.Lex.left
  exact entriesOf_size value entries hO hE

/-- addToNestedStore of store.ts, lines 116-128: a falsy stored value
(undefined for a missing field, but equally null, false, 0 or the empty
string) takes the creating branch: permission check on the key, a fresh
child store, recursive write, then the child is stored (replacing the
falsy value).  A truthy stored value is used as the sub-store without any
permission check; if it is not a Store instance the write call on it
raises the TypeError modelled by Err.notAStore. -/
def addToNestedStore (s : Store) (key : String) (subPath : String)
    (value : SValue) : Except Err Store :=
  if truthy (getAttribute s key) = false then
    if allowedToWrite s key = false then .error (.writeNotAllowed key)
    else
      match Store.write newStore subPath value with
      | .error e => .error e
      | .ok sub => .ok (setAttribute s key (.node sub))
  else
    match getAttribute s key with
    | .node sub =>
      match Store.write sub subPath value with
      | .error e => .error e
      | .ok sub2 => .ok (setAttribute s key (.node sub2))
    | _ => .error (.notAStore key)
termination_by (valSize value, subPath.length + 2)
decreasing_by
  · apply Prod.Lex.right
    omega
  · apply Prod.Lex.right
    omega

/-- The expansion loop of addToThisStore (store.ts lines 107-109): write
each entry of the composite into the fresh child store, in order,
stopping at the first error. -/
def writeEntriesList (s : Store) (entries : List (String × SValue)) :
    Except Err Store :=
  match entries with
  | [] => .ok s
  | (k, v) :: rest =>
    match Store.write s k v with
    | .error e => .error e
    | .ok s2 => writeEntriesList s2 rest
termination_by (fieldsSize entries + 1, 0)
decreasing_by
  · apply Prod.Lex.left
    have := valSize_pos v
    simp [fieldsSize]
    omega
  · apply Prod.Lex.left
    have := valSize_pos v
    simp [fieldsSize]
    omega
end

/-- Iterated reads of the same path, threading the store state, used to
observe successive thunk invocations. -/
def readN : Store → String → Nat → Except Err (List SValue × Store)
  | s, _, 0 => .ok ([], s)
  | s, path, n + 1 =>
    match Store.read s path with
    | .error e => .error e
    | .ok (v, s2) =>
      match readN s2 path n with
      | .error e => .error e
      | .ok (vs, s3) => .ok (v :: vs, s3)

theorem read_terminal (s : Store) (path key : String)
    (h : computePath path = .ok (key, "")) :
    Store.read s path = readThisStore s key := by
  simp only [Store.read]
  split
  · rename_i e heq
    rw [h] at heq
    exact absurd heq (by simp)
  · rename_i key2 sub2 heq
    rw [h] at heq
    have hk : key = key2 ∧ "" = sub2 := by simpa using heq
    obtain ⟨hk1, hk2⟩ := hk
    subst hk1
    subst hk2
    simp

theorem read_nested (s : Store) (path key sub : String)
    (h : computePath path = .ok (key, sub)) (hs : sub ≠ "") :
    Store.read s path = readNestedStore s sub key := by
  simp only [Store.read]
  split
  · rename_i e heq
    rw [h] at heq
    exact absurd heq (by simp)
  · rename_i key2 sub2 heq
    rw [h] at heq
    have hk : key = key2 ∧ sub = sub2 := by simpa using heq
    obtain ⟨hk1, hk2⟩ := hk
    subst hk1
    subst hk2
    simp [hs]

theorem write_terminal (s : Store) (path key : String) (v : SValue)
    (h : computePath path = .ok (key, "")) :
    Store.write s path v = addToThisStore s key v := by
  simp only [Store.write]
  split
  · rename_i e heq
    rw [h] at heq
    exact absurd heq (by simp)
  · rename_i key2 sub2 heq
    rw [h] at heq
    have hk : key = key2 ∧ "" = sub2 := by simpa using heq
    obtain ⟨hk1, hk2⟩ := hk
    subst hk1
    subst hk2
    simp

theorem write_nested (s : Store) (path key sub : String) (v : SValue)
    (h : computePath path = .ok (key, sub)) (hs : sub ≠ "") :
    Store.write s path v = addToNestedStore s key sub v := by
  simp only [Store.write]
  split
  · rename_i e heq
    rw [h] at heq
    exact absurd heq (by simp)
  · rename_i key2 sub2 heq
    rw [h] at heq
    have hk : key = key2 ∧ sub = sub2 := by simpa using heq
    obtain ⟨hk1, hk2⟩ := hk
    subst hk1
    subst hk2
    simp [hs]

theorem perms_setAttribute (s : Store) (key : String) (v : SValue) :
    (setAttribute s key v).perms = s.perms := rfl

theorem lookupField_setField_self (fs : List (String × SValue))
    (key : String) (v : SValue) :
    lookupField (setField fs key v) key = some v := by
  induction fs with
  | nil => simp [setField, lookupField]
  | cons kv rest ih =>
    obtain ⟨k, w⟩ := kv
    by_cases hk : k = key
    · simp [setField, hk, lookupField]
    · simp [setField, hk, lookupField, ih]

theorem lookupField_setField_ne (fs : List (String × SValue))
    (key key2 : String) (v : SValue) (hne : key ≠ key2) :
    lookupField (setField fs key v) key2 = lookupField fs key2 := by
  induction fs with
  | nil => simp [setField, lookupField, hne]
  | cons kv rest ih =>
    obtain ⟨k, w⟩ := kv
    by_cases hk : k = key
    · subst hk
      simp [setField, lookupField, hne]
    · simp [setField, hk, lookupField, ih]

theorem getAttribute_setAttribute_self (s : Store) (key : String) (v : SValue) :
    getAttribute (setAttribute s key v) key = v := by
  simp [getAttribute, setAttribute, Store.fields, lookupField_setField_self]

theorem getAttribute_setAttribute_ne (s : Store) (key key2 : String)
    (v : SValue) (hne : key ≠ key2) :
    getAttribute (setAttribute s key v) key2 = getAttribute s key2 := by
  simp [getAttribute, setAttribute, Store.fields, lookupField_setField_ne _ _ _ _ hne]

theorem getPermission_setAttribute_ne (s : Store) (key f : String) (v : SValue)
    (hne : key ≠ dpKey) :
    getPermission (setAttribute s key v) f = getPermission s f := by
  unfold getPermission
  rw [perms_setAttribute, getAttribute_setAttribute_ne s key dpKey v hne]

theorem allowedToRead_setAttribute_ne (s : Store) (key f : String) (v : SValue)
    (hne : key ≠ dpKey) :
    allowedToRead (setAttribute s key v) f = allowedToRead s f := by
  unfold allowedToRead
  rw [getPermission_setAttribute_ne s key f v hne]

theorem allowedToWrite_setAttribute_ne (s : Store) (key f : String) (v : SValue)
    (hne : key ≠ dpKey) :
    allowedToWrite (setAttribute s key v) f = allowedToWrite s f := by
  unfold allowedToWrite
  rw [getPermission_setAttribute_ne s key f v hne]

theorem splitChars_no_sep (cs : List Char) (h : colon ∉ cs) :
    splitChars cs = [cs] := by
  induction cs with
  | nil => rfl
  | cons c cs ih =>
    simp only [List.mem_cons, not_or] at h
    obtain ⟨hc, hcs⟩ := h
    simp only [splitChars]
    rw [if_neg (fun he => hc he.symm)]
    rw [ih hcs]

theorem computePath_single (k : String) (hk : k ≠ "") (hc : colon ∉ k.data) :
    computePath k = .ok (k, "") := by
  unfold computePath strSplit
  rw [splitChars_no_sep k.data hc]
  have hmk : String.mk k.data = k := by cases k; rfl
  simp [hmk, hk, strJoin]

theorem digitChar_isDigit (m : Nat) (h : m < 10) :
    (Nat.digitChar m).isDigit = true := by
  interval_cases m <;> decide

theorem toDigitsCore_shape (f : Nat) :
    ∀ (n : Nat) (ds : List Char), ∃ l,
      Nat.toDigitsCore 10 f n ds = l ++ ds
      ∧ (∀ c ∈ l, c.isDigit = true) ∧ (0 < f → l ≠ []) := by
  induction f with
  | zero =>
    intro n ds
    exact ⟨[], rfl, by simp, by simp⟩
  | succ f ih =>
    intro n ds
    simp only [Nat.toDigitsCore]
    have hd : (Nat.digitChar (n % 10)).isDigit = true :=
      digitChar_isDigit _ (Nat.mod_lt _ (by omega))
    by_cases hz : n / 10 = 0
    · refine ⟨[Nat.digitChar (n % 10)], ?_, ?_, ?_⟩
      · simp [hz]
      · simp [hd]
      · simp
    · obtain ⟨l, hl, hdig, _⟩ := ih (n / 10) (Nat.digitChar (n % 10) :: ds)
      refine ⟨l ++ [Nat.digitChar (n % 10)], ?_, ?_, ?_⟩
      · simp [hz, hl]
      · intro c hc
        rcases List.mem_append.mp hc with h1 | h2
        · exact hdig c h1
        · simp at h2
          rw [h2]
          exact hd
      · simp

theorem repr_data_digits (n : Nat) :
    (Nat.repr n).data ≠ [] ∧ ∀ c ∈ (Nat.repr n).data, c.isDigit = true := by
  obtain ⟨l, hl, hdig, hne⟩ := toDigitsCore_shape (n + 1) n []
  have hdata : (Nat.repr n).data = l := by
    show (Nat.toDigits 10 n).asString.data = l
    unfold Nat.toDigits
    rw [hl]
    simp [List.asString]
  rw [hdata]
  exact ⟨hne (by omega), hdig⟩

/-- An array index key, as enumerated by Object.entries, is never the
defaultPolicy property name. -/
theorem repr_ne_dpKey (n : Nat) : Nat.repr n ≠ dpKey := by
  intro he
  have hd := (repr_data_digits n).2
  rw [he] at hd
  have : ('d' : Char).isDigit = true := hd 'd' (by decide)
  exact absurd this (by decide)

/-- An array index key contains no path separator. -/
theorem repr_no_colon (n : Nat) : colon ∉ (Nat.repr n).data := by
  intro hmem
  have := (repr_data_digits n).2 colon hmem
  exact absurd this (by decide)

theorem repr_ne_empty (n : Nat) : Nat.repr n ≠ "" := by
  intro he
  have hd := (repr_data_digits n).1
  rw [he] at hd
  exact hd rfl

theorem computePath_repr (n : Nat) :
    computePath (Nat.repr n) = .ok (Nat.repr n, "") :=
  computePath_single _ (repr_ne_empty n) (repr_no_colon n)

/-- C2: allowedToRead and allowedToWrite resolve the permission from the
registry entry for this schema identity and field, falling back to the
instance defaultPolicy property when no entry exists; a field registered
none is denied both capabilities, so single-segment read and write on it
raise the permission errors regardless of the default policy, while a
field registered rw is granted both capabilities. -/
theorem c2_permission_resolution (s : Store) (f : String) :
    (∀ p, lookupPerm s.perms f = some p →
      getPermission s f = .prim (.jstr (permStr p)))
    ∧ (lookupPerm s.perms f = Option.none →
      getPermission s f = getAttribute s dpKey)
    ∧ (lookupPerm s.perms f = some .none →
      allowedToRead s f = false ∧ allowedToWrite s f = false
      ∧ (computePath f = .ok (f, "") →
          ∀ v, Store.read s f = .error (.readNotAllowed f)
            ∧ Store.write s f v = .error (.writeNotAllowed f)))
    ∧ (lookupPerm s.perms f = some .rw →
      allowedToRead s f = true ∧ allowedToWrite s f = true) := by
  refine ⟨?_, ?_, ?_, ?_⟩
  · intro p hp
    unfold getPermission
    rw [hp]
  · intro hp
    unfold getPermission
    rw [hp]
  · intro hp
    have hr : allowedToRead s f = false := by
      unfold allowedToRead getPermission
      rw [hp]
      rfl
    have hw : allowedToWrite s f = false := by
      unfold allowedToWrite getPermission
      rw [hp]
      rfl
    refine ⟨hr, hw, ?_⟩
    intro hcp v
    constructor
    · rw [read_terminal s f f hcp]
      simp [readThisStore, hr]
    · rw [write_terminal s f f v hcp]
      simp [addToThisStore, hw]
  · intro hp
    constructor
    · unfold allowedToRead getPermission
      rw [hp]
      rfl
    · unfold allowedToWrite getPermission
      rw [hp]
      rfl

theorem c2_witness :
    Store.read (Store.mk [(("secret"), Permission.none)]
        [((dpKey), .prim (.jstr rwStr))]) ("secret")
      = .error (.readNotAllowed ("secret"))
    ∧ Store.write (Store.mk [(("secret"), Permission.none)]
        [((dpKey), .prim (.jstr rwStr))]) ("secret") (.prim (.jnum 1))
      = .error (.writeNotAllowed ("secret")) := by
  have h := (c2_permission_resolution (Store.mk [(("secret"), Permission.none)]
    [((dpKey), .prim (.jstr rwStr))]) ("secret")).2.2.1 (by rfl)
  have h2 := h.2.2 (by rfl) (.prim (.jnum 1))
  exact h2

/-- C4: a read through a multi-segment path whose first field holds no
value (the property is missing or undefined) fails at this node with the
missing-intermediate error, the TypeError of calling read on undefined,
carrying the key at which the gap occurs. -/
theorem c4_missing_intermediate_read_fails (s : Store) (path key sub : String)
    (h : computePath path = .ok (key, sub)) (hs : sub ≠ "")
    (hget : getAttribute s key = .undefinedV) :
    Store.read s path = .error (.notAStore key) := by
  rw [read_nested s path key sub h hs]
  simp [readNestedStore, hget]

theorem c4_witness :
    Store.read newStore ("k:x") = .error (.notAStore ("k")) :=
  c4_missing_intermediate_read_fails newStore ("k:x") ("k") ("x")
    (by rfl) (by decide) (by rfl)

/-- C10: thunk handling is asymmetric between read and write traversal:
a nested read through a field holding a thunk invokes the callable
(advancing its internal state) and recurses into the store it returns,
whereas a nested write through the same field never invokes it: the
callable itself is used as the sub-store, so the write fails with the
TypeError of calling write on a function, whatever the thunk returns. -/
theorem c10_thunk_read_write_asymmetry (s : Store) (path key sub : String)
    (c : Nat) (fn : Nat → SValue)
    (h : computePath path = .ok (key, sub)) (hs : sub ≠ "")
    (hget : getAttribute s key = .thunk c fn) :
    (∀ child res child2, fn c = .node child →
        Store.read child sub = .ok (res, child2) →
        Store.read s path = .ok (res, setAttribute s key (.thunk (c + 1) fn)))
    ∧ (∀ v, Store.write s path v = .error (.notAStore key)) := by
  constructor
  · intro child res child2 hfn hread
    rw [read_nested s path key sub h hs]
    simp [readNestedStore, hget, hfn, hread]
  · intro v
    rw [write_nested s path key sub v h hs]
    simp [addToNestedStore, hget, truthy]

theorem c10_witness :
    Store.read (Store.mk [] [((dpKey), .prim (.jstr rwStr)),
        (("t"), .thunk 0 (fun _ => SValue.node newStore))]) ("t:defaultPolicy")
      = .ok (.prim (.jstr rwStr),
          setAttribute (Store.mk [] [((dpKey), .prim (.jstr rwStr)),
            (("t"), .thunk 0 (fun _ => SValue.node newStore))]) ("t")
            (.thunk 1 (fun _ => SValue.node newStore)))
    ∧ Store.write (Store.mk [] [((dpKey), .prim (.jstr rwStr)),
        (("t"), .thunk 0 (fun _ => SValue.node newStore))]) ("t:x")
        (.prim (.jnum 5))
      = .error (.notAStore ("t")) := by
  constructor
  · refine (c10_thunk_read_write_asymmetry _ ("t:defaultPolicy") ("t")
      ("defaultPolicy") 0 (fun _ => SValue.node newStore)
      (by rfl) (by decide) (by rfl)).1 newStore (.prim (.jstr rwStr)) newStore
      (by rfl) ?_
    rw [read_terminal newStore ("defaultPolicy") ("defaultPolicy") (by rfl)]
    rfl
  · exact (c10_thunk_read_write_asymmetry _ ("t:x") ("t") ("x") 0
      (fun _ => SValue.node newStore) (by rfl) (by decide) (by rfl)).2
      (.prim (.jnum 5))

theorem setField_lookup_self (fs : List (String × SValue)) (key : String)
    (v : SValue) (h : lookupField fs key = some v) : setField fs key v = fs := by
  induction fs with
  | nil => simp [lookupField] at h
  | cons kv rest ih =>
    obtain ⟨k, w⟩ := kv
    by_cases hk : k = key
    · subst hk
      simp [lookupField] at h
      simp [setField, h]
    · simp [lookupField, hk] at h
      simp [setField, hk, ih h]

theorem setAttribute_of_getAttribute (s : Store) (key : String) (v : SValue)
    (h : getAttribute s key = v) (hv : v ≠ .undefinedV) :
    setAttribute s key v = s := by
  unfold getAttribute at h
  cases hl : lookupField s.fields key with
  | none => rw [hl] at h; simp [Option.getD] at h; exact absurd h.symm hv
  | some w =>
    rw [hl] at h
    simp [Option.getD] at h
    subst h
    cases s with
    | mk ps fs =>
      unfold setAttribute
      simp [Store.fields, Store.perms] at hl ⊢
      rw [setField_lookup_self fs key w hl]

theorem setField_setField (fs : List (String × SValue)) (key : String)
    (v w : SValue) : setField (setField fs key v) key w = setField fs key w := by
  induction fs with
  | nil => simp [setField]
  | cons kv rest ih =>
    obtain ⟨k, u⟩ := kv
    by_cases hk : k = key
    · simp [setField, hk]
    · simp [setField, hk, ih]

theorem setAttribute_setAttribute (s : Store) (key : String) (v w : SValue) :
    setAttribute (setAttribute s key v) key w = setAttribute s key w := by
  unfold setAttribute
  simp [Store.perms, Store.fields, setField_setField]

/-- A single terminal read of a field holding a thunk invokes the stored
callable on its current state and advances that state. -/
theorem read_thunk_step (s : Store) (key : String) (c : Nat)
    (fn : Nat → SValue)
    (hcp : computePath key = .ok (key, ""))
    (hget : getAttribute s key = .thunk c fn)
    (hr : allowedToRead s key = true) :
    Store.read s key = .ok (fn c, setAttribute s key (.thunk (c + 1) fn)) := by
  rw [read_terminal s key key hcp]
  simp [readThisStore, hr, hget]

/-- Advancing the state of a stored thunk does not change the outcome of
the read-permission check on its own key. -/
theorem allowedToRead_after_bump (s : Store) (key : String) (c c2 : Nat)
    (fn fn2 : Nat → SValue)
    (hget : getAttribute s key = .thunk c fn)
    (hr : allowedToRead s key = true) :
    allowedToRead (setAttribute s key (.thunk c2 fn2)) key = true := by
  by_cases hk : key = dpKey
  · subst hk
    cases hp : lookupPerm s.perms dpKey with
    | some p =>
      have e1 : getPermission (setAttribute s dpKey (.thunk c2 fn2)) dpKey
          = .prim (.jstr (permStr p)) := by
        unfold getPermission
        rw [perms_setAttribute, hp]
      have e2 : getPermission s dpKey = .prim (.jstr (permStr p)) := by
        unfold getPermission
        rw [hp]
      unfold allowedToRead at hr ⊢
      rw [e1]
      rw [e2] at hr
      exact hr
    | none =>
      have e2 : getPermission s dpKey = .thunk c fn := by
        unfold getPermission
        rw [hp]
        exact hget
      unfold allowedToRead at hr
      rw [e2] at hr
      simp [svEqStr] at hr
  · rw [allowedToRead_setAttribute_ne s key key _ hk]
    exact hr

/-- C6: a read of a field holding a thunk re-invokes the stored callable
on every call, with nothing cached: n successive reads invoke it on n
successive internal states, observing the n successive values the
callable yields; in particular a counter thunk yields increasing values. -/
theorem c6_thunk_reinvoked (s : Store) (key : String) (c : Nat)
    (fn : Nat → SValue)
    (hcp : computePath key = .ok (key, ""))
    (hget : getAttribute s key = .thunk c fn)
    (hr : allowedToRead s key = true) :
    ∀ n, readN s key n
      = .ok ((List.range n).map (fun i => fn (c + i)),
             setAttribute s key (.thunk (c + n) fn)) := by
  intro n
  induction n generalizing s c with
  | zero =>
    have hs : setAttribute s key (.thunk (c + 0) fn) = s :=
      setAttribute_of_getAttribute s key _
        (by rw [Nat.add_zero]; exact hget) (by simp)
    rw [hs]
    rfl
  | succ n ih =>
    have hstep := read_thunk_step s key c fn hcp hget hr
    have hget2 : getAttribute (setAttribute s key (.thunk (c + 1) fn)) key
        = .thunk (c + 1) fn := getAttribute_setAttribute_self _ _ _
    have hr2 : allowedToRead (setAttribute s key (.thunk (c + 1) fn)) key
        = true := allowedToRead_after_bump s key c (c + 1) fn fn hget hr
    have ihx := ih (setAttribute s key (.thunk (c + 1) fn)) (c + 1) hget2 hr2
    have hlist : (List.range (n + 1)).map (fun i => fn (c + i))
        = fn c :: (List.range n).map (fun i => fn (c + 1 + i)) := by
      rw [List.range_succ_eq_map]
      simp only [List.map_cons, Nat.add_zero, List.map_map]
      congr 1
      refine List.map_congr_left ?_
      intro i _
      simp only [Function.comp]
      congr 1
      omega
    simp only [readN, hstep, ihx, setAttribute_setAttribute, hlist]
    have harith : c + 1 + n = c + (n + 1) := by omega
    rw [harith]

theorem c6_witness :
    readN (Store.mk [] [((dpKey), .prim (.jstr rwStr)),
        (("t"), .thunk 0 (fun m => SValue.prim (.jnum (Int.ofNat m))))])
      ("t") 3
      = .ok ([.prim (.jnum 0), .prim (.jnum 1), .prim (.jnum 2)],
          setAttribute (Store.mk [] [((dpKey), .prim (.jstr rwStr)),
            (("t"), .thunk 0 (fun m => SValue.prim (.jnum (Int.ofNat m))))])
            ("t") (.thunk 3 (fun m => SValue.prim (.jnum (Int.ofNat m))))) := by
  have h := c6_thunk_reinvoked (Store.mk [] [((dpKey), .prim (.jstr rwStr)),
      (("t"), .thunk 0 (fun m => SValue.prim (.jnum (Int.ofNat m))))])
    ("t") 0 (fun m => SValue.prim (.jnum (Int.ofNat m)))
    (by rfl) (by rfl) (by rfl) 3
  simpa using h

/-- C1 counterexample to the claim as stated: a field that already holds
a value, namely the number 0, with the field registered none.  Because 0
is falsy, addToNestedStore takes the creating branch and the
write-permission check for the key does run, rejecting the write, instead
of the claimed unchecked recursion into the existing child. -/
theorem c1_counterexample :
    getAttribute (Store.mk [(("k"), Permission.none)]
        [((dpKey), .prim (.jstr rwStr)), (("k"), .prim (.jnum 0))]) ("k")
      = .prim (.jnum 0)
    ∧ Store.write (Store.mk [(("k"), Permission.none)]
        [((dpKey), .prim (.jstr rwStr)), (("k"), .prim (.jnum 0))]) ("k:x")
        (.prim (.jnum 1))
      = .error (.writeNotAllowed ("k")) := by
  constructor
  · rfl
  · rw [write_nested _ ("k:x") ("k") ("x") _ (by rfl) (by decide)]
    simp [addToNestedStore, truthy, getAttribute, lookupField, Store.fields,
      allowedToWrite, getPermission, lookupPerm, Store.perms, svEqStr,
      dpKey, permStr, wStr, rwStr]

/-- C1 (amended): a nested write through a key whose stored field holds a
truthy value performs no write-permission check for that key at this
node: even with the key registered none, when the field holds a node the
write recurses into that existing child and succeeds whenever the
recursive child write succeeds. -/
theorem c1_truthy_write_skips_permission (s : Store) (path key sub : String)
    (v : SValue) (child child2 : Store)
    (h : computePath path = .ok (key, sub)) (hs : sub ≠ "")
    (hget : getAttribute s key = .node child)
    (hperm : lookupPerm s.perms key = some .none)
    (hchild : Store.write child sub v = .ok child2) :
    Store.write s path v = .ok (setAttribute s key (.node child2)) := by
  rw [write_nested s path key sub v h hs]
  simp [addToNestedStore, hget, truthy, hchild]

theorem c1_witness :
    Store.write (Store.mk [(("k"), Permission.none)]
        [((dpKey), .prim (.jstr rwStr)), (("k"), .node newStore)]) ("k:x")
        (.prim (.jnum 1))
      = .ok (setAttribute (Store.mk [(("k"), Permission.none)]
          [((dpKey), .prim (.jstr rwStr)), (("k"), .node newStore)]) ("k")
          (.node (Store.mk [] [((dpKey), .prim (.jstr rwStr)),
            (("x"), .prim (.jnum 1))]))) := by
  refine c1_truthy_write_skips_permission _ ("k:x") ("k") ("x")
    (.prim (.jnum 1)) newStore _ (by rfl) (by decide) (by rfl) (by rfl) ?_
  rw [write_terminal newStore ("x") ("x") (.prim (.jnum 1)) (by rfl)]
  simp [addToThisStore, allowedToWrite, getPermission, lookupPerm,
    Store.perms, newStore, getAttribute, lookupField, Store.fields, svEqStr,
    dpKey, rwStr, wStr, permStr, isObjectType, setAttribute, setField]

/-- C5 counterexample to the claim as stated: the path defaultPolicy on a
fresh store resolves to permission rw, which includes both capabilities,
and the permission string w is a Leaf-compatible value; the write
succeeds, but it replaces the policy that the subsequent read permission
check falls back to, so the read fails instead of returning the value. -/
theorem c5_counterexample :
    allowedToRead newStore (dpKey) = true
    ∧ allowedToWrite newStore (dpKey) = true
    ∧ Store.write newStore (dpKey) (.prim (.jstr wStr))
        = .ok (setAttribute newStore (dpKey) (.prim (.jstr wStr)))
    ∧ Store.read (setAttribute newStore (dpKey) (.prim (.jstr wStr))) (dpKey)
        = .error (.readNotAllowed (dpKey)) := by
  refine ⟨rfl, rfl, ?_, ?_⟩
  · rw [write_terminal newStore (dpKey) (dpKey) _ (by rfl)]
    simp [addToThisStore, allowedToWrite, getPermission, lookupPerm,
      Store.perms, newStore, getAttribute, lookupField, Store.fields,
      svEqStr, dpKey, rwStr, wStr, isObjectType]
  · rw [read_terminal _ (dpKey) (dpKey) (by rfl)]
    simp [readThisStore, allowedToRead, getPermission, lookupPerm,
      Store.perms, newStore, getAttribute, lookupField, Store.fields,
      svEqStr, dpKey, rwStr, wStr, rStr, setAttribute, setField]

/-- C5 (amended): for a single-segment path and a non-null primitive
value, write followed by read returns the value unchanged, provided the
resolved permission includes write before the write and read after it
(a write to the defaultPolicy field itself changes later resolution, and
null or composite values do not round-trip as leaves). -/
theorem c5_roundtrip (s : Store) (p : String) (q : JPrim)
    (hcp : computePath p = .ok (p, ""))
    (hq : q ≠ .jnull)
    (hw : allowedToWrite s p = true)
    (hr : allowedToRead (setAttribute s p (.prim q)) p = true) :
    Store.write s p (.prim q) = .ok (setAttribute s p (.prim q))
    ∧ Store.read (setAttribute s p (.prim q)) p
        = .ok (.prim q, setAttribute s p (.prim q)) := by
  have hobj : isObjectType (SValue.prim q) = false := by
    cases q with
    | jnull => exact absurd rfl hq
    | jbool b => rfl
    | jnum n => rfl
    | jstr t => rfl
  constructor
  · rw [write_terminal s p p _ hcp]
    simp [addToThisStore, hw, hobj]
  · rw [read_terminal _ p p hcp]
    simp [readThisStore, hr, getAttribute_setAttribute_self]

theorem c5_witness :
    Store.write newStore ("x") (.prim (.jnum 7))
      = .ok (setAttribute newStore ("x") (.prim (.jnum 7)))
    ∧ Store.read (setAttribute newStore ("x") (.prim (.jnum 7))) ("x")
      = .ok (.prim (.jnum 7), setAttribute newStore ("x") (.prim (.jnum 7))) :=
  c5_roundtrip newStore ("x") (.jnum 7) (by rfl) (by decide) (by rfl) (by rfl)

/-- C8 counterexample to the claim as stated: a nested write through a
field holding the number 0, an existing non-Node value.  Because 0 is
falsy, the creating branch runs and stores a fresh node at the key,
replacing the existing non-Node field, which the claim says never
happens. -/
theorem c8_counterexample :
    getAttribute (Store.mk [] [((dpKey), .prim (.jstr rwStr)),
        (("k"), .prim (.jnum 0))]) ("k") = .prim (.jnum 0)
    ∧ Store.write (Store.mk [] [((dpKey), .prim (.jstr rwStr)),
        (("k"), .prim (.jnum 0))]) ("k:x") (.prim (.jnum 1))
      = .ok (setAttribute (Store.mk [] [((dpKey), .prim (.jstr rwStr)),
          (("k"), .prim (.jnum 0))]) ("k")
          (.node (Store.mk [] [((dpKey), .prim (.jstr rwStr)),
            (("x"), .prim (.jnum 1))]))) := by
  constructor
  · rfl
  · rw [write_nested _ ("k:x") ("k") ("x") _ (by rfl) (by decide)]
    have hsub : Store.write newStore ("x") (.prim (.jnum 1))
        = .ok (Store.mk [] [((dpKey), .prim (.jstr rwStr)),
            (("x"), .prim (.jnum 1))]) := by
      rw [write_terminal newStore ("x") ("x") _ (by rfl)]
      simp [addToThisStore, allowedToWrite, getPermission, lookupPerm,
        Store.perms, newStore, getAttribute, lookupField, Store.fields,
        svEqStr, dpKey, rwStr, wStr, isObjectType, setAttribute, setField]
    simp [addToNestedStore, truthy, getAttribute, lookupField, Store.fields,
      dpKey, allowedToWrite, getPermission, lookupPerm, Store.perms,
      svEqStr, rwStr, wStr, hsub]

/-- C8 (amended): a nested write through a field holding a truthy value
never creates a node there: it recurses into the value when it is a Node
and fails with the TypeError otherwise; a field that is absent or holds a
falsy value (undefined, null, false, 0 or the empty string) takes the
creating branch, which checks write permission and stores a fresh node,
replacing any falsy stored value. -/
theorem c8_nested_write_kinds (s : Store) (path key sub : String) (v : SValue)
    (h : computePath path = .ok (key, sub)) (hs : sub ≠ "") :
    (∀ child, getAttribute s key = .node child →
      Store.write s path v = Except.map
        (fun c2 => setAttribute s key (.node c2)) (Store.write child sub v))
    ∧ (truthy (getAttribute s key) = true →
      (∀ child, getAttribute s key ≠ .node child) →
      Store.write s path v = .error (.notAStore key))
    ∧ (truthy (getAttribute s key) = false →
      allowedToWrite s key = true →
      Store.write s path v = Except.map
        (fun c2 => setAttribute s key (.node c2))
        (Store.write newStore sub v)) := by
  refine ⟨?_, ?_, ?_⟩
  · intro child hget
    rw [write_nested s path key sub v h hs]
    cases hw : Store.write child sub v with
    | error e => simp [addToNestedStore, hget, truthy, hw, Except.map]
    | ok c2 => simp [addToNestedStore, hget, truthy, hw, Except.map]
  · intro ht hnot
    rw [write_nested s path key sub v h hs]
    cases hval : getAttribute s key with
    | node child => exact absurd hval (hnot child)
    | prim q =>
      rw [hval] at ht
      simp [addToNestedStore, hval, ht]
    | undefinedV =>
      rw [hval] at ht
      simp [truthy] at ht
    | arr xs => simp [addToNestedStore, hval, truthy]
    | obj fs => simp [addToNestedStore, hval, truthy]
    | thunk c fn => simp [addToNestedStore, hval, truthy]
  · intro ht hw
    rw [write_nested s path key sub v h hs]
    cases hwr : Store.write newStore sub v with
    | error e => simp [addToNestedStore, ht, hw, hwr, Except.map]
    | ok c2 => simp [addToNestedStore, ht, hw, hwr, Except.map]

theorem c8_witness :
    Store.write (Store.mk [] [((dpKey), .prim (.jstr rwStr)),
        (("k"), .node newStore)]) ("k:x") (.prim (.jnum 2))
      = .ok (setAttribute (Store.mk [] [((dpKey), .prim (.jstr rwStr)),
          (("k"), .node newStore)]) ("k")
          (.node (Store.mk [] [((dpKey), .prim (.jstr rwStr)),
            (("x"), .prim (.jnum 2))]))) := by
  have h := (c8_nested_write_kinds (Store.mk [] [((dpKey), .prim (.jstr rwStr)),
      (("k"), .node newStore)]) ("k:x") ("k") ("x") (.prim (.jnum 2))
      (by rfl) (by decide)).1 newStore (by rfl)
  rw [h]
  have hsub : Store.write newStore ("x") (.prim (.jnum 2))
      = .ok (Store.mk [] [((dpKey), .prim (.jstr rwStr)),
          (("x"), .prim (.jnum 2))]) := by
    rw [write_terminal newStore ("x") ("x") _ (by rfl)]
    simp [addToThisStore, allowedToWrite, getPermission, lookupPerm,
      Store.perms, newStore, getAttribute, lookupField, Store.fields,
      svEqStr, dpKey, rwStr, wStr, isObjectType, setAttribute, setField]
  rw [hsub]
  rfl

/-- C9 counterexample to the claim as stated: on a fresh store (default
policy rw, defaultPolicy not registered) writing the permission string
none to the defaultPolicy field succeeds and replaces the policy, but the
subsequent read of defaultPolicy does not return the current policy: the
read permission check now falls back to the new policy none and raises
the permission error. -/
theorem c9_counterexample :
    lookupPerm newStore.perms (dpKey) = Option.none
    ∧ getAttribute newStore (dpKey) = .prim (.jstr rwStr)
    ∧ Store.write newStore (dpKey) (.prim (.jstr ("none")))
        = .ok (setAttribute newStore (dpKey) (.prim (.jstr ("none"))))
    ∧ Store.read (setAttribute newStore (dpKey)
          (.prim (.jstr ("none")))) (dpKey)
        = .error (.readNotAllowed (dpKey)) := by
  refine ⟨rfl, rfl, ?_, ?_⟩
  · rw [write_terminal newStore (dpKey) (dpKey) _ (by rfl)]
    simp [addToThisStore, allowedToWrite, getPermission, lookupPerm,
      Store.perms, newStore, getAttribute, lookupField, Store.fields,
      svEqStr, dpKey, rwStr, wStr, isObjectType]
  · rw [read_terminal _ (dpKey) (dpKey) (by rfl)]
    simp [readThisStore, allowedToRead, getPermission, lookupPerm,
      Store.perms, newStore, getAttribute, lookupField, Store.fields,
      svEqStr, dpKey, rwStr, rStr, setAttribute, setField]

/-- C9 (amended): on a store whose defaultPolicy field holds rw and whose
schema has no registry entry for defaultPolicy, writing any permission
string to defaultPolicy succeeds and replaces the instance policy, and
every subsequent permission resolution for an unregistered field falls
back to the new policy; the subsequent read of defaultPolicy returns the
current policy exactly when that policy includes the read capability, and
raises the permission error when it is w or none. -/
theorem c9_defaultPolicy_write (s : Store) (p : Permission)
    (hreg : lookupPerm s.perms (dpKey) = Option.none)
    (hcur : getAttribute s (dpKey) = .prim (.jstr rwStr)) :
    Store.write s (dpKey) (.prim (.jstr (permStr p)))
      = .ok (setAttribute s (dpKey) (.prim (.jstr (permStr p))))
    ∧ (∀ f, lookupPerm s.perms f = Option.none →
        getPermission (setAttribute s (dpKey) (.prim (.jstr (permStr p)))) f
          = .prim (.jstr (permStr p)))
    ∧ ((p = .r ∨ p = .rw) →
        Store.read (setAttribute s (dpKey) (.prim (.jstr (permStr p)))) (dpKey)
          = .ok (.prim (.jstr (permStr p)),
              setAttribute s (dpKey) (.prim (.jstr (permStr p)))))
    ∧ ((p = .w ∨ p = .none) →
        Store.read (setAttribute s (dpKey) (.prim (.jstr (permStr p)))) (dpKey)
          = .error (.readNotAllowed (dpKey))) := by
  have hw : allowedToWrite s (dpKey) = true := by
    unfold allowedToWrite getPermission
    rw [hreg, hcur]
    rfl
  have hperm2 : getPermission (setAttribute s (dpKey)
      (.prim (.jstr (permStr p)))) (dpKey) = .prim (.jstr (permStr p)) := by
    unfold getPermission
    rw [perms_setAttribute, hreg, getAttribute_setAttribute_self]
  refine ⟨?_, ?_, ?_, ?_⟩
  · rw [write_terminal s (dpKey) (dpKey) _ (by rfl)]
    simp [addToThisStore, hw, isObjectType]
  · intro f hf
    unfold getPermission
    rw [perms_setAttribute, hf, getAttribute_setAttribute_self]
  · intro hp
    have hr : allowedToRead (setAttribute s (dpKey)
        (.prim (.jstr (permStr p)))) (dpKey) = true := by
      unfold allowedToRead
      rw [hperm2]
      rcases hp with hp | hp <;> subst hp <;> rfl
    rw [read_terminal _ (dpKey) (dpKey) (by rfl)]
    simp [readThisStore, hr, getAttribute_setAttribute_self]
  · intro hp
    have hr : allowedToRead (setAttribute s (dpKey)
        (.prim (.jstr (permStr p)))) (dpKey) = false := by
      unfold allowedToRead
      rw [hperm2]
      rcases hp with hp | hp <;> subst hp <;> rfl
    rw [read_terminal _ (dpKey) (dpKey) (by rfl)]
    simp [readThisStore, hr]

theorem c9_witness :
    Store.write newStore (dpKey) (.prim (.jstr (permStr .r)))
      = .ok (setAttribute newStore (dpKey) (.prim (.jstr (permStr .r))))
    ∧ Store.read (setAttribute newStore (dpKey)
          (.prim (.jstr (permStr .r)))) (dpKey)
      = .ok (.prim (.jstr (permStr .r)),
          setAttribute newStore (dpKey) (.prim (.jstr (permStr .r)))) := by
  have h := c9_defaultPolicy_write newStore .r (by rfl) (by rfl)
  exact ⟨h.1, h.2.2.1 (Or.inl rfl)⟩

theorem read_computePath_error (s : Store) (path : String) (e : Err)
    (h : computePath path = .error e) : Store.read s path = .error e := by
  simp only [Store.read]
  split
  · rename_i e2 heq
    rw [h] at heq
    have : e = e2 := by simpa using heq
    rw [this]
  · rename_i key2 sub2 heq
    rw [h] at heq
    exact absurd heq (by simp)

/-- A sub-path that begins with the separator resolves to an empty first
segment and is rejected by computePath. -/
theorem computePath_leading_colon (sub : String)
    (hhead : sub.data.head? = some colon) :
    computePath sub = .error .emptyPath := by
  cases hdata : sub.data with
  | nil => rw [hdata] at hhead; simp at hhead
  | cons a as =>
    rw [hdata] at hhead
    simp only [List.head?_cons, Option.some.injEq] at hhead
    subst hhead
    unfold computePath strSplit
    rw [hdata]
    simp [splitChars]

/-- C7 counterexample to the claim as stated: a child store holds a
readable value under the empty-string key, so a key lookup for the empty
string at that level would succeed; yet reading through the empty
interior segment does not perform that lookup, it is rejected with the
empty-path error at the next level. -/
theorem c7_counterexample :
    allowedToRead (Store.mk [] [((dpKey), .prim (.jstr rwStr)),
        ((""), .prim (.jnum 42))]) ("") = true
    ∧ getAttribute (Store.mk [] [((dpKey), .prim (.jstr rwStr)),
        ((""), .prim (.jnum 42))]) ("") = .prim (.jnum 42)
    ∧ Store.read (Store.mk [] [((dpKey), .prim (.jstr rwStr)),
        (("a"), .node (Store.mk [] [((dpKey), .prim (.jstr rwStr)),
          ((""), .prim (.jnum 42))]))]) ("a::")
      = .error .emptyPath := by
  refine ⟨rfl, rfl, ?_⟩
  rw [read_nested _ ("a::") ("a") (":") (by rfl) (by decide)]
  have hsub : Store.read (Store.mk [] [(("defaultPolicy"), .prim (.jstr rwStr)),
      ((""), .prim (.jnum 42))]) (":") = .error .emptyPath :=
    read_computePath_error _ (":") .emptyPath (by rfl)
  simp [readNestedStore, getAttribute, lookupField, Store.fields, dpKey, hsub]

/-- C7 (amended): outer path resolution succeeds and passes an empty
interior segment through as the leading segment of the remainder; the
next level's own resolution then rejects that remainder with the
empty-path error, because the empty segment is the outermost key of the
sub-call, so an empty interior segment never becomes an ordinary
empty-string key lookup. -/
theorem c7_empty_interior_segment (s child : Store) (path key sub : String)
    (hcp : computePath path = .ok (key, sub))
    (hhead : sub.data.head? = some colon)
    (hget : getAttribute s key = .node child) :
    Store.read s path = .error .emptyPath := by
  have hs : sub ≠ "" := by
    intro he
    rw [he] at hhead
    simp at hhead
  rw [read_nested s path key sub hcp hs]
  have hsub : Store.read child sub = .error .emptyPath :=
    read_computePath_error child sub .emptyPath (computePath_leading_colon sub hhead)
  simp [readNestedStore, hget, hsub]

theorem c7_witness :
    Store.read (Store.mk [] [((dpKey), .prim (.jstr rwStr)),
        (("a"), .node newStore)]) ("a::b") = .error .emptyPath :=
  c7_empty_interior_segment _ newStore ("a::b") ("a") (":b")
    (by rfl) (by rfl) (by rfl)

/-- The store that results from expanding an array of primitives: a fresh
store whose fields are the initial defaultPolicy property followed by the
decimal index keys bound to the array elements, in order. -/
def expandPrimArr (xs : List JPrim) : Store :=
  (enumFrom 0 (xs.map (fun q => SValue.prim q))).foldl
    (fun acc e => setAttribute acc e.1 e.2) newStore

theorem mem_enumFrom (vs : List SValue) :
    ∀ (i : Nat) (e : String × SValue), e ∈ enumFrom i vs →
      (∃ j, e.1 = Nat.repr j) ∧ e.2 ∈ vs := by
  induction vs with
  | nil =>
    intro i e he
    simp [enumFrom] at he
  | cons x xs ih =>
    intro i e he
    simp only [enumFrom, List.mem_cons] at he
    rcases he with he | he
    · subst he
      exact ⟨⟨i, rfl⟩, by simp⟩
    · obtain ⟨⟨j, hj⟩, hmem⟩ := ih (i + 1) e he
      exact ⟨⟨j, hj⟩, by simp [hmem]⟩

/-- The expansion loop stores every entry of a list of single-segment,
non-defaultPolicy keys bound to non-null primitives without error, and
the resulting store is the fold of setAttribute over the entries. -/
theorem writeEntriesList_prims (entries : List (String × SValue)) :
    ∀ st : Store, st.perms = [] →
    getAttribute st (dpKey) = .prim (.jstr rwStr) →
    (∀ e ∈ entries, computePath e.1 = .ok (e.1, "") ∧ e.1 ≠ dpKey
      ∧ ∃ q, e.2 = SValue.prim q ∧ q ≠ JPrim.jnull) →
    writeEntriesList st entries
      = .ok (entries.foldl (fun acc e => setAttribute acc e.1 e.2) st) := by
  induction entries with
  | nil =>
    intro st hperms hdp hall
    simp [writeEntriesList]
  | cons e rest ih =>
    intro st hperms hdp hall
    obtain ⟨k, v⟩ := e
    obtain ⟨hcp, hnd, q, hq, hqn⟩ := hall (k, v) (List.mem_cons_self _ _)
    simp only at hcp hnd hq
    subst hq
    have hw : allowedToWrite st k = true := by
      unfold allowedToWrite getPermission
      have hl : lookupPerm st.perms k = Option.none := by rw [hperms]; rfl
      rw [hl, hdp]
      rfl
    have hobj : isObjectType (SValue.prim q) = false := by
      cases q with
      | jnull => exact absurd rfl hqn
      | jbool b => rfl
      | jnum n => rfl
      | jstr t => rfl
    have hwrite : Store.write st k (SValue.prim q)
        = .ok (setAttribute st k (.prim q)) := by
      rw [write_terminal st k k _ hcp]
      simp [addToThisStore, hw, hobj]
    have hperms2 : (setAttribute st k (SValue.prim q)).perms = [] := by
      rw [perms_setAttribute, hperms]
    have hdp2 : getAttribute (setAttribute st k (SValue.prim q)) (dpKey)
        = .prim (.jstr rwStr) := by
      rw [getAttribute_setAttribute_ne st k dpKey _ hnd, hdp]
    have hall2 : ∀ e2 ∈ rest, computePath e2.1 = .ok (e2.1, "")
        ∧ e2.1 ≠ dpKey ∧ ∃ q2, e2.2 = SValue.prim q2 ∧ q2 ≠ JPrim.jnull :=
      fun e2 he2 => hall e2 (List.mem_cons_of_mem _ he2)
    simp only [writeEntriesList, hwrite]
    rw [ih (setAttribute st k (SValue.prim q)) hperms2 hdp2 hall2]
    simp [List.foldl]

/-- The object branch of addToThisStore, with the entries of the value
made explicit. -/
theorem addToThisStore_object (s : Store) (key : String) (value : SValue)
    (hw : allowedToWrite s key = true) (hO : isObjectType value = true)
    (entries : List (String × SValue)) (hE : entriesOf value = .ok entries) :
    addToThisStore s key value
      = (match writeEntriesList newStore entries with
         | .error e => .error e
         | .ok sub => .ok (setAttribute s key (.node sub))) := by
  simp only [addToThisStore, hw, hO, Bool.true_eq_false, if_false, dif_pos]
  split
  · rename_i e heq
    rw [hE] at heq
    exact absurd heq (by simp)
  · rename_i entries2 heq
    rw [hE] at heq
    have he2 : entries = entries2 := by simpa using heq
    subst he2
    rfl

/-- C3 counterexample to the claim as stated: writing the one-element
array of the number 1 under a write-permitted key on a fresh store does
not store the array as a Leaf: typeof of an array is object, so the
array is expanded into a child node whose field is the index key 0, and
the subsequent read returns that node, which is not the array. -/
theorem c3_counterexample :
    Store.write newStore ("k") (.arr [SValue.prim (.jnum 1)])
      = .ok (setAttribute newStore ("k")
          (.node (Store.mk [] [((dpKey), .prim (.jstr rwStr)),
            (("0"), .prim (.jnum 1))])))
    ∧ Store.read (setAttribute newStore ("k")
          (.node (Store.mk [] [((dpKey), .prim (.jstr rwStr)),
            (("0"), .prim (.jnum 1))]))) ("k")
      = .ok (.node (Store.mk [] [((dpKey), .prim (.jstr rwStr)),
            (("0"), .prim (.jnum 1))]),
          setAttribute newStore ("k")
            (.node (Store.mk [] [((dpKey), .prim (.jstr rwStr)),
              (("0"), .prim (.jnum 1))])))
    ∧ SValue.node (Store.mk [] [((dpKey), .prim (.jstr rwStr)),
          (("0"), .prim (.jnum 1))]) ≠ .arr [SValue.prim (.jnum 1)] := by
  refine ⟨?_, ?_, ?_⟩
  · rw [write_terminal newStore ("k") ("k") _ (by rfl)]
    have hwrite0 : Store.write newStore ("0") (.prim (.jnum 1))
        = .ok (Store.mk [] [((dpKey), .prim (.jstr rwStr)),
            (("0"), .prim (.jnum 1))]) := by
      rw [write_terminal newStore ("0") ("0") _ (by rfl)]
      simp [addToThisStore, allowedToWrite, getPermission, lookupPerm,
        Store.perms, newStore, getAttribute, lookupField, Store.fields,
        svEqStr, dpKey, rwStr, wStr, isObjectType, setAttribute, setField]
    have hentries : entriesOf (.arr [SValue.prim (.jnum 1)])
        = .ok [(("0"), SValue.prim (.jnum 1))] := by rfl
    have hWEL : writeEntriesList newStore [(("0"), SValue.prim (.jnum 1))]
        = .ok (Store.mk [] [((dpKey), .prim (.jstr rwStr)),
            (("0"), .prim (.jnum 1))]) := by
      simp [writeEntriesList, hwrite0]
    rw [addToThisStore_object newStore ("k") _ (by rfl) (by rfl) _ hentries,
      hWEL]
  · rw [read_terminal _ ("k") ("k") (by rfl)]
    simp [readThisStore, allowedToRead, getPermission, lookupPerm,
      Store.perms, getAttribute, lookupField, Store.fields,
      svEqStr, dpKey, rwStr, rStr, setAttribute, setField, newStore]
  · intro h
    exact SValue.noConfusion h

/-- C3 (amended): writing an array under a write-permitted single-segment
key does not store it as a Leaf: the array is expanded into a fresh child
Node whose fields are the decimal index keys bound to the elements, that
node is stored at the key, and a permitted subsequent read returns the
node, not the array.  Stated for arrays of non-null primitives: a null
element makes the recursive write throw, and nested composites expand
recursively in turn. -/
theorem c3_array_expanded_to_node (s : Store) (k : String) (xs : List JPrim)
    (hcp : computePath k = .ok (k, ""))
    (hw : allowedToWrite s k = true)
    (hxs : ∀ q ∈ xs, q ≠ JPrim.jnull) :
    Store.write s k (.arr (xs.map (fun q => SValue.prim q)))
      = .ok (setAttribute s k (.node (expandPrimArr xs)))
    ∧ (allowedToRead (setAttribute s k (.node (expandPrimArr xs))) k = true →
        Store.read (setAttribute s k (.node (expandPrimArr xs))) k
          = .ok (.node (expandPrimArr xs),
              setAttribute s k (.node (expandPrimArr xs)))) := by
  have hWEL : writeEntriesList newStore
      (enumFrom 0 (xs.map (fun q => SValue.prim q)))
      = .ok (expandPrimArr xs) := by
    apply writeEntriesList_prims _ newStore rfl rfl
    intro e he
    obtain ⟨⟨j, hj⟩, hmem⟩ := mem_enumFrom _ 0 e he
    refine ⟨by rw [hj]; exact computePath_repr j,
      by rw [hj]; exact repr_ne_dpKey j, ?_⟩
    simp only [List.mem_map] at hmem
    obtain ⟨q, hqmem, hqe⟩ := hmem
    exact ⟨q, hqe.symm, hxs q hqmem⟩
  constructor
  · rw [write_terminal s k k _ hcp]
    rw [addToThisStore_object s k _ hw (by rfl) _ (by rfl), hWEL]
  · intro hr
    rw [read_terminal _ k k hcp]
    simp [readThisStore, hr, getAttribute_setAttribute_self]

theorem c3_witness :
    Store.write newStore ("k")
        (.arr [SValue.prim (.jnum 1), SValue.prim (.jnum 2)])
      = .ok (setAttribute newStore ("k")
          (.node (expandPrimArr [.jnum 1, .jnum 2])))
    ∧ Store.read (setAttribute newStore ("k")
          (.node (expandPrimArr [.jnum 1, .jnum 2]))) ("k")
      = .ok (.node (expandPrimArr [.jnum 1, .jnum 2]),
          setAttribute newStore ("k")
            (.node (expandPrimArr [.jnum 1, .jnum 2]))) := by
  have h := c3_array_expanded_to_node newStore ("k") [.jnum 1, .jnum 2]
    (by rfl) (by rfl) (by decide)
  exact ⟨h.1, h.2 (by rfl)⟩

end StoreSpec
